import Mathlib

/-!
Shallow embedding of the design-token validation utilities of this repository:
the CSS custom-property extractor (`extractCSSVariables`), the variable
resolver (`resolveVariable`), the hex color parser (`parseColorToRGB`), the
WCAG luminance and contrast engine (`getRelativeLuminance`,
`getContrastRatio`) and the duration parser (`parseDurationToMs`,
`extractDurationFromTransition`).

Strings are modelled as `List Char`.  JavaScript regular expressions are
embedded by their deterministic matching semantics on the concrete patterns
used by the source (all of them are backtracking-free up to the one
documented case in `matchValueSemi`).  JavaScript `Map` objects are modelled
as functions `List Char → Option (List Char)` updated by `setVar`
(last-write-wins, as `Map.set`).  Floating-point numbers of the luminance
engine are modelled as real numbers; the duration parser, whose test values
are exact, is modelled over `ℚ`.
-/

/-- Convert a string literal to the character-list representation. -/
def toL (s : String) : List Char := s.toList

/-- The open-brace character. -/
def obr : Char := '\x7b'

/-- The close-brace character. -/
def cbr : Char := '\x7d'

/-- JavaScript regex `\s` / `String.trim` whitespace class. -/
def isWS (c : Char) : Bool :=
  c == ' ' || c == '\t' || c == '\n' || c == '\r' || c == '\x0b' || c == '\x0c' ||
  c == '\u00A0' || c == '\u1680' || ('\u2000' ≤ c && c ≤ '\u200A') ||
  c == '\u2028' || c == '\u2029' || c == '\u202F' || c == '\u205F' ||
  c == '\u3000' || c == '\uFEFF'

/-- Character class `[\w-]` of the declaration regex: word characters or hyphen. -/
def isNameChar (c : Char) : Bool :=
  c.isAlphanum || c == '_' || c == '-'

/-- Character class `[0-9a-fA-F]` of the hex color regex. -/
def isHexDigit (c : Char) : Bool :=
  (48 ≤ c.toNat && c.toNat ≤ 57) || (97 ≤ c.toNat && c.toNat ≤ 102) ||
  (65 ≤ c.toNat && c.toNat ≤ 70)

/-- Value of one hex digit, as `parseInt(-, 16)` reads it. -/
def hexVal (c : Char) : Nat :=
  if 48 ≤ c.toNat && c.toNat ≤ 57 then c.toNat - 48
  else if 97 ≤ c.toNat then c.toNat - 87
  else c.toNat - 55

/-- Literal prefix test: does `cs` start with the pattern `pat`? -/
def startsWith : List Char → List Char → Bool
  | [], _ => true
  | _ :: _, [] => false
  | p :: ps, c :: cs => p == c && startsWith ps cs

/-- JavaScript `String.prototype.trim`. -/
def trimJS (cs : List Char) : List Char :=
  ((cs.dropWhile isWS).reverse.dropWhile isWS).reverse

/-- A JavaScript `Map<string, string>`, as a lookup function. -/
abbrev VarMap := List Char → Option (List Char)

/-- The empty map `new Map()`. -/
def vmEmpty : VarMap := fun _ => none

/-- `Map.set`: insert or overwrite one key. -/
def setVar (m : VarMap) (k v : List Char) : VarMap :=
  fun k' => if k' = k then some v else m k'

/-- The brace-matching scan of `extractCSSVariables`: starting at nesting
depth `d`, the number of characters consumed by
`while (i < css.length && depth > 0)` incrementing depth on an open brace
and decrementing it on a close brace. -/
def braceConsume : List Char → Nat → Nat
  | [], _ => 0
  | c :: cs, d =>
    if d = 0 then 0
    else
      1 + braceConsume cs (if c = obr then d + 1 else if c = cbr then d - 1 else d)

/-- The `\s*([^;]+);` tail of the declaration regex, at a fixed position:
returns the captured value group and the remainder after the semicolon.
Greedy `\s*` is tried first; when the following `[^;]+` cannot match
because the next character is already the semicolon, the engine backtracks
one whitespace character, which then forms the (whitespace-only) value. -/
def matchValueSemi (cs : List Char) : Option (List Char × List Char) :=
  let r := cs.dropWhile isWS
  let v := r.takeWhile (fun c => !(c == ';'))
  match r.dropWhile (fun c => !(c == ';')) with
  | ';' :: tl =>
    if v.isEmpty then
      match (cs.takeWhile isWS).reverse with
      | [] => none
      | c :: _ => some ([c], tl)
    else some (v, tl)
  | _ => none

/-- The declaration regex `--([\w-]+):\s*([^;]+);` tried at a fixed position:
returns (name group, value group, remainder after the match). -/
def matchVarDecl (cs : List Char) : Option (List Char × List Char × List Char) :=
  match cs with
  | c1 :: c2 :: cs2 =>
    if c1 = '-' ∧ c2 = '-' then
      let n := cs2.takeWhile isNameChar
      match cs2.dropWhile isNameChar with
      | c3 :: cs3 =>
        if c3 = ':' ∧ ¬ n.isEmpty then
          match matchValueSemi cs3 with
          | some (v, rest) => some (n, v, rest)
          | none => none
        else none
      | [] => none
    else none
  | _ => none

/-- The inner loop `while ((varMatch = varRegex.exec(block)) !== null)`: scan
left to right; on a match, record the trimmed value under key `--name` and
continue after the match (`skip` counts positions still inside the previous
match, mirroring the regex `lastIndex`). -/
def varGoAux : List Char → Nat → VarMap → VarMap
  | [], _, m => m
  | _ :: cs, Nat.succ k, m => varGoAux cs k m
  | c :: cs, 0, m =>
    match matchVarDecl (c :: cs) with
    | some (n, v, rest) =>
      varGoAux cs (cs.length - rest.length) (setVar m ('-' :: '-' :: n) (trimJS v))
    | none => varGoAux cs 0 m

/-- Collect all declarations of one block into the map. -/
def varGo (block : List Char) (m : VarMap) : VarMap :=
  varGoAux block 0 m

/-- The selector regex `<escaped selector>\s*\{` tried at a fixed position
(the escaping makes the selector a literal): on success, the remainder just
after the open brace. -/
def matchSelectorOpen (sel cs : List Char) : Option (List Char) :=
  if startsWith sel cs then
    match (cs.drop sel.length).dropWhile isWS with
    | c :: tl => if c = obr then some tl else none
    | [] => none
  else none

/-- The outer loop `while ((match = selectorRegex.exec(css)) !== null)`: scan
left to right for `selector {`; on a match, find the matching close brace by
`braceConsume`, slice out the block (`css.slice(start, i - 1)`), collect its
declarations, and continue scanning from just after the open brace
(`skip` mirrors the regex `lastIndex`). -/
def extractGoAux (sel : List Char) : List Char → Nat → VarMap → VarMap
  | [], _, m => m
  | _ :: cs, Nat.succ k, m => extractGoAux sel cs k m
  | c :: cs, 0, m =>
    match matchSelectorOpen sel (c :: cs) with
    | some rest =>
      extractGoAux sel cs (cs.length - rest.length)
        (varGo (rest.take (braceConsume rest 1 - 1)) m)
    | none => extractGoAux sel cs 0 m

/-- `extractCSSVariables(css, selector)` of `test-utils/css-helpers`. -/
def extractCSSVariables (css : List Char) (selector : List Char) : VarMap :=
  extractGoAux selector css 0 vmEmpty

/-- RGB channel triple produced by the color parser. -/
structure RGB where
  r : Nat
  g : Nat
  b : Nat
deriving DecidableEq, Repr

/-- `parseColorToRGB`: the regex `^#([0-9a-fA-F]{3}|[0-9a-fA-F]{6})$`,
duplicating each digit in the 3-digit form, two digits per channel in the
6-digit form. -/
def parseColorToRGB (color : List Char) : Option RGB :=
  match color with
  | ['#', a, b, c] =>
    if isHexDigit a && isHexDigit b && isHexDigit c then
      some ⟨hexVal a * 16 + hexVal a, hexVal b * 16 + hexVal b, hexVal c * 16 + hexVal c⟩
    else none
  | ['#', a, b, c, d, e, f] =>
    if isHexDigit a && isHexDigit b && isHexDigit c &&
       isHexDigit d && isHexDigit e && isHexDigit f then
      some ⟨hexVal a * 16 + hexVal b, hexVal c * 16 + hexVal d, hexVal e * 16 + hexVal f⟩
    else none
  | _ => none

/-- The sRGB-to-linear transform applied to one normalized channel:
`c <= 0.03928 ? c / 12.92 : Math.pow((c + 0.055) / 1.055, 2.4)`. -/
noncomputable def linearizeChannel (c : ℝ) : ℝ :=
  if c ≤ 0.03928 then c / 12.92 else ((c + 0.055) / 1.055) ^ (2.4 : ℝ)

/-- `getRelativeLuminance` (WCAG 2.1). -/
noncomputable def getRelativeLuminance (rgb : RGB) : ℝ :=
  0.2126 * linearizeChannel ((rgb.r : ℝ) / 255) +
  0.7152 * linearizeChannel ((rgb.g : ℝ) / 255) +
  0.0722 * linearizeChannel ((rgb.b : ℝ) / 255)

/-- `getContrastRatio` (WCAG 2.1): `null` when either color fails to parse,
otherwise `(lighter + 0.05) / (darker + 0.05)`. -/
noncomputable def getContrastRatio (color1 color2 : List Char) : Option ℝ :=
  match parseColorToRGB color1, parseColorToRGB color2 with
  | some rgb1, some rgb2 =>
    some ((max (getRelativeLuminance rgb1) (getRelativeLuminance rgb2) + 0.05) /
          (min (getRelativeLuminance rgb1) (getRelativeLuminance rgb2) + 0.05))
  | _, _ => none

/-- Decimal digits to a natural number. -/
def digitsToNat (ds : List Char) : Nat :=
  ds.foldl (fun acc c => acc * 10 + (c.toNat - 48)) 0

/-- Remainder of the string after the numeral group `(\\d+(?:\\.\\d+)?)` of the
duration regexes (anchored at the start).  The optional fraction group is
taken only when at least one digit follows the dot. -/
def numTail (cs : List Char) : List Char :=
  match cs.dropWhile Char.isDigit with
  | '.' :: r2 =>
    if (r2.takeWhile Char.isDigit).isEmpty then '.' :: r2
    else r2.dropWhile Char.isDigit
  | r1 => r1

/-- Exact rational value of the numeral group (`parseFloat` of the captured
digits). -/
def numVal (cs : List Char) : ℚ :=
  match cs.dropWhile Char.isDigit with
  | '.' :: r2 =>
    if (r2.takeWhile Char.isDigit).isEmpty then (digitsToNat (cs.takeWhile Char.isDigit) : ℚ)
    else (digitsToNat (cs.takeWhile Char.isDigit) : ℚ) +
      (digitsToNat (r2.takeWhile Char.isDigit) : ℚ) / (10 : ℚ) ^ (r2.takeWhile Char.isDigit).length
  | _ => (digitsToNat (cs.takeWhile Char.isDigit) : ℚ)

/-- The numeral group of the duration regexes, anchored at the start: its
value and the remainder, or `none` when no digit starts the string. -/
def parseNumPrefix (cs : List Char) : Option (ℚ × List Char) :=
  if (cs.takeWhile Char.isDigit).isEmpty then none
  else some (numVal cs, numTail cs)

/-- `parseDurationToMs`: `^(\d+(?:\.\d+)?)\s*ms` taken as-is, else
`^(\d+(?:\.\d+)?)\s*s` multiplied by 1000, else `null`. -/
def parseDurationToMs (duration : List Char) : Option ℚ :=
  match parseNumPrefix duration with
  | none => none
  | some (q, rest) =>
    match rest.dropWhile isWS with
    | 'm' :: 's' :: _ => some q
    | 's' :: _ => some (q * 1000)
    | _ => none

mutual

/-- `String.prototype.split(/\s+/)`, accumulating the current token. -/
def splitWSAux : List Char → List Char → List (List Char)
  | [], acc => [acc.reverse]
  | c :: cs, acc =>
    if isWS c then acc.reverse :: splitWSGap cs
    else splitWSAux cs (c :: acc)

/-- Inside a maximal whitespace separator run of `split(/\s+/)`. -/
def splitWSGap : List Char → List (List Char)
  | [] => [[]]
  | c :: cs => if isWS c then splitWSGap cs else splitWSAux cs [c]

end

/-- `transition.split(/\s+/)`. -/
def splitWS (cs : List Char) : List (List Char) :=
  splitWSAux cs []

/-- `extractDurationFromTransition`: parse the first whitespace-separated
token that is a valid duration. -/
def extractDurationFromTransition (transition : List Char) : Option ℚ :=
  (splitWS transition).findSome? parseDurationToMs

/-- Modelled from the spec: the accepted duration grammar of the duration
parser contract, "an integer or decimal number immediately followed by `ms`
or immediately followed by `s`" (prefix-wise), used to state the negative
direction of the duration-parsing claim. -/
def specDurationForm (cs : List Char) : Bool :=
  if (cs.takeWhile Char.isDigit).isEmpty then false
  else startsWith ['m', 's'] (numTail cs) || startsWith ['s'] (numTail cs)

/-- The variable-reference regex `var\(--([^)]+)\)` tried at a fixed
position: the name group. -/
def matchVarRefAt (cs : List Char) : Option (List Char) :=
  if startsWith ['v', 'a', 'r', '(', '-', '-'] cs then
    let r := cs.drop 6
    let n := r.takeWhile (fun x => !(x == ')'))
    if n.isEmpty then none
    else
      match r.dropWhile (fun x => !(x == ')')) with
      | ')' :: _ => some n
      | _ => none
  else none

/-- `value.match(/var\(--([^)]+)\)/)`: leftmost match anywhere in the value. -/
def matchVarRef : List Char → Option (List Char)
  | [] => none
  | c :: cs =>
    match matchVarRefAt (c :: cs) with
    | some n => some n
    | none => matchVarRef cs

/-- JavaScript `a || b` on an optional string: `undefined` and the empty
string are both falsy. -/
def jsOrStr (a : Option (List Char)) (b : List Char) : List Char :=
  match a with
  | some s => if s.isEmpty then b else s
  | none => b

/-- `resolveVariable(value, variables, rootVars)`:
`variables.get(varName) || rootVars.get(varName) || value` when the value
matches a `var(--name)` reference, the value unchanged otherwise. -/
def resolveVariable (value : List Char) (vars rootVars : VarMap) : List Char :=
  match matchVarRef value with
  | some n =>
    jsOrStr (vars ('-' :: '-' :: n)) (jsOrStr (rootVars ('-' :: '-' :: n)) value)
  | none => value

/-! ## Helper lemmas: numeric bounds -/

theorem linearizeChannel_mem (c : ℝ) (h0 : 0 ≤ c) (h1 : c ≤ 1) :
    0 ≤ linearizeChannel c ∧ linearizeChannel c ≤ 1 := by
  unfold linearizeChannel
  split_ifs with h
  · refine ⟨by positivity, ?_⟩
    rw [div_le_one (by norm_num : (0:ℝ) < 12.92)]
    linarith
  · have hb0 : (0:ℝ) ≤ (c + 0.055) / 1.055 := by positivity
    have hb1 : (c + 0.055) / 1.055 ≤ 1 := by
      rw [div_le_one (by norm_num : (0:ℝ) < 1.055)]
      linarith
    exact ⟨Real.rpow_nonneg hb0 _, Real.rpow_le_one hb0 hb1 (by norm_num)⟩

theorem getRelativeLuminance_mem (rgb : RGB) (hr : rgb.r ≤ 255) (hg : rgb.g ≤ 255)
    (hb : rgb.b ≤ 255) :
    0 ≤ getRelativeLuminance rgb ∧ getRelativeLuminance rgb ≤ 1 := by
  have bound : ∀ n : Nat, n ≤ 255 → 0 ≤ (n : ℝ) / 255 ∧ (n : ℝ) / 255 ≤ 1 := by
    intro n hn
    refine ⟨by positivity, ?_⟩
    rw [div_le_one (by norm_num : (0:ℝ) < 255)]
    exact_mod_cast hn
  obtain ⟨hr0, hr1⟩ := linearizeChannel_mem _ (bound _ hr).1 (bound _ hr).2
  obtain ⟨hg0, hg1⟩ := linearizeChannel_mem _ (bound _ hg).1 (bound _ hg).2
  obtain ⟨hb0, hb1⟩ := linearizeChannel_mem _ (bound _ hb).1 (bound _ hb).2
  unfold getRelativeLuminance
  constructor <;> nlinarith

theorem hexVal_le (c : Char) (h : isHexDigit c = true) : hexVal c ≤ 15 := by
  unfold isHexDigit at h
  unfold hexVal
  simp only [Bool.or_eq_true, Bool.and_eq_true, decide_eq_true_eq] at h
  split_ifs with h1 h2 <;>
    simp only [Bool.and_eq_true, decide_eq_true_eq, Bool.not_eq_true] at h1 <;>
    omega

theorem parseColorToRGB_le (cs : List Char) (rgb : RGB) (h : parseColorToRGB cs = some rgb) :
    rgb.r ≤ 255 ∧ rgb.g ≤ 255 ∧ rgb.b ≤ 255 := by
  unfold parseColorToRGB at h
  split at h
  · rename_i a b c
    split_ifs at h with hc
    simp only [Bool.and_eq_true] at hc
    obtain ⟨⟨ha, hbb⟩, hcc⟩ := hc
    cases h
    have := hexVal_le a ha
    have := hexVal_le b hbb
    have := hexVal_le c hcc
    exact ⟨by simp only []; omega, by simp only []; omega, by simp only []; omega⟩
  · rename_i a b c d e f
    split_ifs at h with hc
    simp only [Bool.and_eq_true] at hc
    obtain ⟨⟨⟨⟨⟨ha, hb2⟩, hc2⟩, hd2⟩, he2⟩, hf2⟩ := hc
    cases h
    have := hexVal_le a ha
    have := hexVal_le b hb2
    have := hexVal_le c hc2
    have := hexVal_le d hd2
    have := hexVal_le e he2
    have := hexVal_le f hf2
    exact ⟨by simp only []; omega, by simp only []; omega, by simp only []; omega⟩
  · cases h

/-! ## Helper lemmas: duration parsing -/

theorem numTail_sublist (cs : List Char) : (numTail cs).Sublist cs := by
  unfold numTail
  split
  · rename_i r2 hdw
    have h1 : ('.' :: r2).Sublist cs := by
      rw [← hdw]
      exact List.dropWhile_sublist _
    split_ifs with hf
    · exact h1
    · exact ((List.dropWhile_sublist _).trans (List.sublist_cons_self _ _)).trans h1
  · rename_i hne
    exact List.dropWhile_sublist _

theorem dropWhile_eq_self_of_all {p : Char → Bool} (l : List Char)
    (h : ∀ c ∈ l, p c = false) : l.dropWhile p = l := by
  cases l with
  | nil => rfl
  | cons c t =>
    rw [List.dropWhile_cons_of_neg]
    simp [h c (by simp)]

theorem durTail_none (rest : List Char) (q : ℚ)
    (hms : startsWith ['m', 's'] rest = false) (hs : startsWith ['s'] rest = false) :
    (match rest with
     | 'm' :: 's' :: _ => some q
     | 's' :: _ => some (q * 1000)
     | _ => (none : Option ℚ)) = none := by
  split
  · rename_i t
    simp [startsWith] at hms
  · rename_i t
    simp [startsWith] at hs
  · rfl

/-! ## Claim theorems (color and duration) -/

/-- Claim C2: for every pair of color strings A and B,
`getContrastRatio A B = getContrastRatio B A`, including the case where
either side fails to parse (`null`). -/
theorem getContrastRatio_comm (c1 c2 : List Char) :
    getContrastRatio c1 c2 = getContrastRatio c2 c1 := by
  unfold getContrastRatio
  cases parseColorToRGB c1 <;> cases parseColorToRGB c2 <;> simp only []
  rw [max_comm, min_comm]

/-- Claim C3: for every RGB color with channels in [0,255], the relative
luminance lies in [0,1]; and whenever `getContrastRatio` returns a value,
that value lies in [1,21]. -/
theorem luminance_contrast_bounds :
    (∀ rgb : RGB, rgb.r ≤ 255 → rgb.g ≤ 255 → rgb.b ≤ 255 →
      0 ≤ getRelativeLuminance rgb ∧ getRelativeLuminance rgb ≤ 1) ∧
    (∀ (c1 c2 : List Char) (q : ℝ), getContrastRatio c1 c2 = some q →
      1 ≤ q ∧ q ≤ 21) := by
  refine ⟨getRelativeLuminance_mem, ?_⟩
  intro c1 c2 q h
  unfold getContrastRatio at h
  cases hp1 : parseColorToRGB c1 with
  | none => rw [hp1] at h; cases h
  | some rgb1 =>
    cases hp2 : parseColorToRGB c2 with
    | none => rw [hp1, hp2] at h; cases h
    | some rgb2 =>
      rw [hp1, hp2] at h
      simp only [Option.some.injEq] at h
      obtain ⟨b1r, b1g, b1b⟩ := parseColorToRGB_le c1 rgb1 hp1
      obtain ⟨b2r, b2g, b2b⟩ := parseColorToRGB_le c2 rgb2 hp2
      obtain ⟨l1a, l1b⟩ := getRelativeLuminance_mem rgb1 b1r b1g b1b
      obtain ⟨l2a, l2b⟩ := getRelativeLuminance_mem rgb2 b2r b2g b2b
      have hmin0 : 0 ≤ min (getRelativeLuminance rgb1) (getRelativeLuminance rgb2) :=
        le_min l1a l2a
      have hminpos : (0:ℝ) < min (getRelativeLuminance rgb1) (getRelativeLuminance rgb2) + 0.05 := by
        linarith
      have hmax1 : max (getRelativeLuminance rgb1) (getRelativeLuminance rgb2) ≤ 1 :=
        max_le l1b l2b
      have hmm : min (getRelativeLuminance rgb1) (getRelativeLuminance rgb2) ≤
          max (getRelativeLuminance rgb1) (getRelativeLuminance rgb2) := min_le_max
      subst h
      constructor
      · rw [one_le_div hminpos]
        linarith
      · rw [div_le_iff₀ hminpos]
        linarith

/-- Witness for C3 at concrete inputs: black has luminance in [0,1], and the
white-on-black contrast ratio (exactly 21) lies in [1,21]. -/
theorem luminance_contrast_bounds_witness :
    (0 ≤ getRelativeLuminance ⟨0, 0, 0⟩ ∧ getRelativeLuminance ⟨0, 0, 0⟩ ≤ 1) ∧
    (1 ≤ (21 : ℝ) ∧ (21 : ℝ) ≤ 21) := by
  constructor
  · exact luminance_contrast_bounds.1 ⟨0, 0, 0⟩ (by norm_num) (by norm_num) (by norm_num)
  · refine luminance_contrast_bounds.2 (toL "#fff") (toL "#000") 21 ?_
    have hparse1 : parseColorToRGB (toL "#fff") = some ⟨255, 255, 255⟩ := by decide
    have hparse2 : parseColorToRGB (toL "#000") = some ⟨0, 0, 0⟩ := by decide
    have hlw : getRelativeLuminance ⟨255, 255, 255⟩ = 1 := by
      unfold getRelativeLuminance linearizeChannel
      have h1 : ((255:ℕ) : ℝ) / 255 = 1 := by norm_num
      simp only [h1]
      rw [if_neg (by norm_num : ¬ (1:ℝ) ≤ 0.03928)]
      rw [show ((1:ℝ) + 0.055) / 1.055 = 1 by norm_num, Real.one_rpow]
      norm_num
    have hlb : getRelativeLuminance ⟨0, 0, 0⟩ = 0 := by
      unfold getRelativeLuminance linearizeChannel
      have h0 : ((0:ℕ) : ℝ) / 255 = 0 := by norm_num
      simp only [h0]
      rw [if_pos (by norm_num : (0:ℝ) ≤ 0.03928)]
      norm_num
    unfold getContrastRatio
    rw [hparse1, hparse2]
    simp only [hlw, hlb, Option.some.injEq]
    rw [max_eq_left (by norm_num : (0:ℝ) ≤ 1), min_eq_right (by norm_num : (0:ℝ) ≤ 1)]
    norm_num

/-- Claim C4: `parseColorToRGB` succeeds exactly on `#` followed by 3 or 6
hex digits; a 3-digit form duplicates each digit for its channel, a 6-digit
form converts two digits per channel; everything else yields `none`. -/
theorem parseColorToRGB_characterization (cs : List Char) (rgb : RGB) :
    parseColorToRGB cs = some rgb ↔
      ((∃ a b c, cs = ['#', a, b, c] ∧
          (isHexDigit a = true ∧ isHexDigit b = true ∧ isHexDigit c = true) ∧
          rgb = ⟨hexVal a * 16 + hexVal a, hexVal b * 16 + hexVal b,
                 hexVal c * 16 + hexVal c⟩) ∨
       (∃ a b c d e f, cs = ['#', a, b, c, d, e, f] ∧
          (isHexDigit a = true ∧ isHexDigit b = true ∧ isHexDigit c = true ∧
           isHexDigit d = true ∧ isHexDigit e = true ∧ isHexDigit f = true) ∧
          rgb = ⟨hexVal a * 16 + hexVal b, hexVal c * 16 + hexVal d,
                 hexVal e * 16 + hexVal f⟩)) := by
  constructor
  · intro h
    unfold parseColorToRGB at h
    split at h
    · rename_i a b c
      split_ifs at h with hc
      simp only [Bool.and_eq_true] at hc
      obtain ⟨⟨ha, hbb⟩, hcc⟩ := hc
      cases h
      exact Or.inl ⟨a, b, c, rfl, ⟨ha, hbb, hcc⟩, rfl⟩
    · rename_i a b c d e f
      split_ifs at h with hc
      simp only [Bool.and_eq_true] at hc
      obtain ⟨⟨⟨⟨⟨ha, hb2⟩, hc2⟩, hd2⟩, he2⟩, hf2⟩ := hc
      cases h
      exact Or.inr ⟨a, b, c, d, e, f, rfl, ⟨ha, hb2, hc2, hd2, he2, hf2⟩, rfl⟩
    · cases h
  · rintro (⟨a, b, c, rfl, ⟨h1, h2, h3⟩, rfl⟩ |
            ⟨a, b, c, d, e, f, rfl, ⟨h1, h2, h3, h4, h5, h6⟩, rfl⟩) <;>
      simp [parseColorToRGB, h1, h2, h3, *]

/-- Witness for C4: `#1af` parses with each digit duplicated. -/
theorem parseColorToRGB_characterization_witness :
    parseColorToRGB (toL "#1af") = some ⟨17, 170, 255⟩ :=
  (parseColorToRGB_characterization (toL "#1af") ⟨17, 170, 255⟩).mpr
    (Or.inl ⟨'1', 'a', 'f', by decide, by decide, by decide⟩)

/-- Claim C6: `getContrastRatio` yields `null` exactly when at least one
input fails to parse; the unresolved string `var(--missing)` is unparseable
(no crash), `getContrastRatio` on it yields `null`, and resolving it against
empty maps returns it unchanged. -/
theorem getContrastRatio_none_iff :
    (∀ c1 c2 : List Char,
      getContrastRatio c1 c2 = none ↔
        (parseColorToRGB c1 = none ∨ parseColorToRGB c2 = none)) ∧
    parseColorToRGB (toL "var(--missing)") = none ∧
    getContrastRatio (toL "var(--missing)") (toL "#ffffff") = none ∧
    resolveVariable (toL "var(--missing)") vmEmpty vmEmpty = toL "var(--missing)" := by
  refine ⟨?_, by decide, rfl, by decide⟩
  intro c1 c2
  unfold getContrastRatio
  cases h1 : parseColorToRGB c1 <;> cases h2 : parseColorToRGB c2 <;> simp

/-- Witness for C6: a named color is unparseable, hence contrast is `null`. -/
theorem getContrastRatio_none_iff_witness :
    getContrastRatio (toL "blue") (toL "#fff") = none :=
  (getContrastRatio_none_iff.1 (toL "blue") (toL "#fff")).mpr (Or.inl (by decide))

/-- Claim C7: parsing `150ms` and `0.15s` both yield 150; the shorthand
`150ms ease` also yields 150 (first whitespace-separated token that is a
duration); a (whitespace-free) token matching neither the `ms` form nor the
`s` form yields `none`. -/
theorem duration_parsing :
    parseDurationToMs (toL "150ms") = some 150 ∧
    parseDurationToMs (toL "0.15s") = some 150 ∧
    extractDurationFromTransition (toL "150ms ease") = some 150 ∧
    (∀ cs : List Char, (∀ c ∈ cs, isWS c = false) →
      specDurationForm cs = false → parseDurationToMs cs = none) := by
  refine ⟨?_, ?_, ?_, ?_⟩
  · have h : parseDurationToMs (toL "150ms") = some ((digitsToNat ['1', '5', '0'] : ℚ)) := rfl
    rw [h, show digitsToNat ['1', '5', '0'] = 150 from by decide]
    norm_num
  · have h : parseDurationToMs (toL "0.15s") =
        some (((digitsToNat ['0'] : ℚ) +
          (digitsToNat ['1', '5'] : ℚ) / (10 : ℚ) ^ (['1', '5'].length)) * 1000) := rfl
    rw [h, show digitsToNat ['0'] = 0 from by decide,
        show digitsToNat ['1', '5'] = 15 from by decide]
    norm_num
  · have h : extractDurationFromTransition (toL "150ms ease") =
        some ((digitsToNat ['1', '5', '0'] : ℚ)) := rfl
    rw [h, show digitsToNat ['1', '5', '0'] = 150 from by decide]
    norm_num
  · intro cs hws hform
    cases hp : parseNumPrefix cs with
    | none => simp [parseDurationToMs, hp]
    | some pr =>
      obtain ⟨q, rest⟩ := pr
      have hrest : rest = numTail cs := by
        unfold parseNumPrefix at hp
        split_ifs at hp with hds
        simp only [Option.some.injEq, Prod.mk.injEq] at hp
        exact hp.2.symm
      have hds : ¬ (cs.takeWhile Char.isDigit).isEmpty = true := by
        intro hcon
        unfold parseNumPrefix at hp
        rw [if_pos hcon] at hp
        cases hp
      have hsub : rest.Sublist cs := hrest ▸ numTail_sublist cs
      have hrestws : ∀ c ∈ rest, isWS c = false := fun c hc => hws c (hsub.subset hc)
      have hdw : rest.dropWhile isWS = rest := dropWhile_eq_self_of_all rest hrestws
      unfold specDurationForm at hform
      rw [if_neg hds] at hform
      simp only [Bool.or_eq_false_iff] at hform
      simp only [parseDurationToMs, hp, hdw]
      exact durTail_none rest q (hrest ▸ hform.1) (hrest ▸ hform.2)

/-- Witness for C7: `ease` matches neither duration form, so parsing it
yields `none`. -/
theorem duration_parsing_witness : parseDurationToMs (toL "ease") = none :=
  duration_parsing.2.2.2 (toL "ease") (by decide) (by decide)

/-- Claim C5 counterexample: the own scope maps the referenced name to the
empty string (present), yet the resolver returns the root value rather than
that own-scope value, because `||` treats the empty string as falsy. -/
theorem resolveVariable_own_present_counterexample :
    (setVar vmEmpty (toL "--n") []) (toL "--n") = some [] ∧
    resolveVariable (toL "var(--n)") (setVar vmEmpty (toL "--n") [])
      (setVar vmEmpty (toL "--n") (toL "#fff")) = toL "#fff" := by
  constructor <;> decide

/-- Claim C5 (amended): the resolver returns the own-scope value when
present and non-empty, otherwise the root-scope value when present and
non-empty, otherwise the raw value unchanged; a raw value not matching the
reference pattern is returned unchanged. -/
theorem resolveVariable_spec :
    (∀ (value : List Char) (own root : VarMap) (n v : List Char),
        matchVarRef value = some n → own ('-' :: '-' :: n) = some v → v ≠ [] →
        resolveVariable value own root = v) ∧
    (∀ (value : List Char) (own root : VarMap) (n w : List Char),
        matchVarRef value = some n →
        (own ('-' :: '-' :: n) = none ∨ own ('-' :: '-' :: n) = some []) →
        root ('-' :: '-' :: n) = some w → w ≠ [] →
        resolveVariable value own root = w) ∧
    (∀ (value : List Char) (own root : VarMap) (n : List Char),
        matchVarRef value = some n →
        (own ('-' :: '-' :: n) = none ∨ own ('-' :: '-' :: n) = some []) →
        (root ('-' :: '-' :: n) = none ∨ root ('-' :: '-' :: n) = some []) →
        resolveVariable value own root = value) ∧
    (∀ (value : List Char) (own root : VarMap),
        matchVarRef value = none → resolveVariable value own root = value) := by
  refine ⟨?_, ?_, ?_, ?_⟩
  · intro value own root n v hm ho hv
    cases v with
    | nil => exact absurd rfl hv
    | cons c t => simp [resolveVariable, hm, ho, jsOrStr]
  · intro value own root n w hm ho hr hw
    cases w with
    | nil => exact absurd rfl hw
    | cons c t =>
      rcases ho with ho | ho <;> simp [resolveVariable, hm, ho, hr, jsOrStr]
  · intro value own root n hm ho hr
    rcases ho with ho | ho <;> rcases hr with hr | hr <;>
      simp [resolveVariable, hm, ho, hr, jsOrStr]
  · intro value own root hm
    simp [resolveVariable, hm]

/-- Witness for the amended C5: a non-empty own-scope hit is returned. -/
theorem resolveVariable_spec_witness :
    resolveVariable (toL "var(--a)") (setVar vmEmpty (toL "--a") (toL "#123")) vmEmpty =
      toL "#123" :=
  resolveVariable_spec.1 (toL "var(--a)") (setVar vmEmpty (toL "--a") (toL "#123")) vmEmpty
    ['a'] (toL "#123") (by decide) (by decide) (by decide)

/-- Claim C10: when the own scope maps the referenced name to the empty
string, the resolver does not return that empty string: it falls through to
the root-scope value when present (and non-empty), otherwise to the raw
value; in particular the result is never the empty string. -/
theorem resolveVariable_empty_own_falls_through (value : List Char) (own root : VarMap)
    (n : List Char) (hm : matchVarRef value = some n)
    (he : own ('-' :: '-' :: n) = some []) :
    (∀ w, root ('-' :: '-' :: n) = some w → w ≠ [] → resolveVariable value own root = w) ∧
    (root ('-' :: '-' :: n) = none → resolveVariable value own root = value) ∧
    resolveVariable value own root ≠ [] := by
  have hvne : value ≠ [] := by
    intro hcon
    rw [hcon] at hm
    simp [matchVarRef] at hm
  refine ⟨?_, ?_, ?_⟩
  · intro w hw hne
    cases w with
    | nil => exact absurd rfl hne
    | cons c t => simp [resolveVariable, hm, he, hw, jsOrStr]
  · intro hw
    simp [resolveVariable, hm, he, hw, jsOrStr]
  · cases hr : root ('-' :: '-' :: n) with
    | none => simpa [resolveVariable, hm, he, hr, jsOrStr] using hvne
    | some w =>
      cases w with
      | nil => simpa [resolveVariable, hm, he, hr, jsOrStr] using hvne
      | cons c t => simp [resolveVariable, hm, he, hr, jsOrStr]

/-- Witness for C10: empty own-scope hit falls through to the root value. -/
theorem resolveVariable_empty_own_falls_through_witness :
    resolveVariable (toL "var(--b)") (setVar vmEmpty (toL "--b") [])
      (setVar vmEmpty (toL "--b") (toL "#222")) = toL "#222" :=
  (resolveVariable_empty_own_falls_through (toL "var(--b)")
      (setVar vmEmpty (toL "--b") []) (setVar vmEmpty (toL "--b") (toL "#222"))
      ['b'] (by decide) (by decide)).1 (toL "#222") (by decide) (by decide)

/-! ## Helper lemmas: extraction machinery -/

theorem startsWith_append_self (l r : List Char) : startsWith l (l ++ r) = true := by
  induction l with
  | nil => rfl
  | cons c t ih => simp [startsWith, ih]

theorem varGoAux_nil (k : Nat) (m : VarMap) : varGoAux [] k m = m := rfl

theorem varGoAux_cons_succ (c : Char) (cs : List Char) (k : Nat) (m : VarMap) :
    varGoAux (c :: cs) (k + 1) m = varGoAux cs k m := rfl

theorem varGoAux_cons_zero (c : Char) (cs : List Char) (m : VarMap) :
    varGoAux (c :: cs) 0 m =
      match matchVarDecl (c :: cs) with
      | some (n, v, rest) =>
        varGoAux cs (cs.length - rest.length) (setVar m ('-' :: '-' :: n) (trimJS v))
      | none => varGoAux cs 0 m := rfl

theorem matchVarDecl_none_head (c : Char) (cs : List Char) (hne : c ≠ '-') :
    matchVarDecl (c :: cs) = none := by
  cases cs with
  | nil => rfl
  | cons c2 t =>
    simp only [matchVarDecl]
    rw [if_neg (fun hh => hne hh.1)]

theorem varGoAux_skip_head (c : Char) (hne : c ≠ '-') (cs : List Char) (m : VarMap) :
    varGoAux (c :: cs) 0 m = varGoAux cs 0 m := by
  rw [varGoAux_cons_zero, matchVarDecl_none_head c cs hne]

theorem varGoAux_skip_app (xs : List Char) (hxs : ∀ c ∈ xs, c ≠ '-') (r : List Char)
    (m : VarMap) : varGoAux (xs ++ r) 0 m = varGoAux r 0 m := by
  induction xs with
  | nil => rfl
  | cons c t ih =>
    rw [List.cons_append, varGoAux_skip_head c (hxs c (by simp))]
    exact ih (fun c hc => hxs c (by simp [hc]))

theorem varGoAux_skip_count (xs r : List Char) (m : VarMap) :
    varGoAux (xs ++ r) xs.length m = varGoAux r 0 m := by
  induction xs with
  | nil => rfl
  | cons c t ih =>
    rw [List.cons_append, List.length_cons, varGoAux_cons_succ]
    exact ih

theorem extractGoAux_nil (sel : List Char) (k : Nat) (m : VarMap) :
    extractGoAux sel [] k m = m := rfl

theorem extractGoAux_cons_succ (sel : List Char) (c : Char) (cs : List Char) (k : Nat)
    (m : VarMap) : extractGoAux sel (c :: cs) (k + 1) m = extractGoAux sel cs k m := rfl

theorem extractGoAux_cons_zero (sel : List Char) (c : Char) (cs : List Char) (m : VarMap) :
    extractGoAux sel (c :: cs) 0 m =
      match matchSelectorOpen sel (c :: cs) with
      | some rest =>
        extractGoAux sel cs (cs.length - rest.length)
          (varGo (rest.take (braceConsume rest 1 - 1)) m)
      | none => extractGoAux sel cs 0 m := rfl

theorem extractGoAux_skip_count (sel xs r : List Char) (m : VarMap) :
    extractGoAux sel (xs ++ r) xs.length m = extractGoAux sel r 0 m := by
  induction xs with
  | nil => rfl
  | cons c t ih =>
    rw [List.cons_append, List.length_cons, extractGoAux_cons_succ]
    exact ih

theorem matchSelectorOpen_nil (sel : List Char) : matchSelectorOpen sel [] = none := by
  unfold matchSelectorOpen
  split_ifs with hsw
  · simp
  · rfl

theorem matchSelectorOpen_none_head (h : Char) (s : List Char) (c : Char) (cs : List Char)
    (hne : c ≠ h) : matchSelectorOpen (h :: s) (c :: cs) = none := by
  have hb : (h == c) = false := beq_eq_false_iff_ne.mpr (Ne.symm hne)
  simp [matchSelectorOpen, startsWith, hb]

theorem matchSelectorOpen_none_no_open (sel cs : List Char) (hcs : ∀ c ∈ cs, c ≠ obr) :
    matchSelectorOpen sel cs = none := by
  unfold matchSelectorOpen
  split_ifs with hsw
  · cases hdd : (cs.drop sel.length).dropWhile isWS with
    | nil => rfl
    | cons c tl =>
      have hc : c ∈ cs := by
        have h1 : c ∈ (cs.drop sel.length).dropWhile isWS := by
          rw [hdd]; exact List.mem_cons_self c tl
        exact (List.drop_sublist _ _).subset ((List.dropWhile_sublist _).subset h1)
      simp [hcs c hc]
  · rfl

theorem extractGoAux_no_open (sel cs : List Char) (hcs : ∀ c ∈ cs, c ≠ obr) (m : VarMap) :
    extractGoAux sel cs 0 m = m := by
  induction cs with
  | nil => rfl
  | cons c t ih =>
    rw [extractGoAux_cons_zero, matchSelectorOpen_none_no_open sel (c :: t) hcs]
    exact ih (fun c hc => hcs c (by simp [hc]))

theorem extractGoAux_no_head (h : Char) (s : List Char) (cs : List Char)
    (hcs : ∀ c ∈ cs, c ≠ h) (m : VarMap) : extractGoAux (h :: s) cs 0 m = m := by
  induction cs with
  | nil => rfl
  | cons c t ih =>
    rw [extractGoAux_cons_zero, matchSelectorOpen_none_head h s c t (hcs c (by simp))]
    exact ih (fun c hc => hcs c (by simp [hc]))

theorem matchSelectorOpen_suffix (sel cs rest : List Char)
    (h : matchSelectorOpen sel cs = some rest) : ∃ c cs', cs = c :: cs' ∧ rest.IsSuffix cs' := by
  cases cs with
  | nil => rw [matchSelectorOpen_nil] at h; cases h
  | cons c cs' =>
    refine ⟨c, cs', rfl, ?_⟩
    unfold matchSelectorOpen at h
    split_ifs at h with hsw
    · cases hdd : ((c :: cs').drop sel.length).dropWhile isWS with
      | nil => rw [hdd] at h; cases h
      | cons c2 tl =>
        rw [hdd] at h
        simp only [] at h
        split_ifs at h with hc2
        · cases h
          have h1 : (c2 :: rest).IsSuffix (c :: cs') := by
            rw [← hdd]
            exact (List.dropWhile_suffix _).trans (List.drop_suffix _ _)
          obtain ⟨t, ht⟩ := h1
          cases t with
          | nil =>
            simp only [List.nil_append, List.cons.injEq] at ht
            exact ht.2 ▸ List.suffix_refl rest
          | cons a t' =>
            simp only [List.cons_append, List.cons.injEq] at ht
            exact ⟨t' ++ [c2], by rw [← ht.2]; simp⟩

theorem extractGoAux_some_step (sel : List Char) (c : Char) (cs rest : List Char)
    (m : VarMap) (h : matchSelectorOpen sel (c :: cs) = some rest) :
    extractGoAux sel (c :: cs) 0 m =
      extractGoAux sel cs (cs.length - rest.length)
        (varGo (rest.take (braceConsume rest 1 - 1)) m) := by
  rw [extractGoAux_cons_zero, h]

theorem extractGoAux_match (sel cs rest : List Char) (m : VarMap)
    (h : matchSelectorOpen sel cs = some rest) :
    extractGoAux sel cs 0 m =
      extractGoAux sel rest 0 (varGo (rest.take (braceConsume rest 1 - 1)) m) := by
  obtain ⟨c, cs', rfl, hsuf⟩ := matchSelectorOpen_suffix sel cs rest h
  obtain ⟨pre, hpre⟩ := hsuf
  rw [extractGoAux_some_step sel c cs' rest m h]
  rw [← hpre, List.length_append, Nat.add_sub_cancel]
  exact extractGoAux_skip_count sel pre rest _

theorem matchSelectorOpen_self (sel r : List Char) :
    matchSelectorOpen sel (sel ++ ' ' :: obr :: r) = some r := by
  unfold matchSelectorOpen
  rw [if_pos (startsWith_append_self sel _)]
  rw [List.drop_left]
  rw [List.dropWhile_cons_of_pos (by decide : isWS ' ' = true)]
  rw [List.dropWhile_cons_of_neg (by decide : ¬ isWS obr = true)]
  simp

theorem braceConsume_obr (cs : List Char) (d : Nat) (hd : d ≠ 0) :
    braceConsume (obr :: cs) d = 1 + braceConsume cs (d + 1) := by
  simp [braceConsume, hd]

theorem braceConsume_cbr (cs : List Char) (d : Nat) (hd : d ≠ 0) :
    braceConsume (cbr :: cs) d = 1 + braceConsume cs (d - 1) := by
  simp only [braceConsume, if_neg hd]
  rw [if_neg (by decide : ¬ cbr = obr)]
  simp

theorem braceConsume_zero (cs : List Char) : braceConsume cs 0 = 0 := by
  cases cs <;> simp [braceConsume]

theorem braceConsume_append_free (xs : List Char)
    (hxs : ∀ c ∈ xs, c ≠ obr ∧ c ≠ cbr) (r : List Char) (d : Nat) (hd : d ≠ 0) :
    braceConsume (xs ++ r) d = xs.length + braceConsume r d := by
  induction xs with
  | nil => simp
  | cons c t ih =>
    rw [List.cons_append]
    simp only [braceConsume, if_neg hd]
    rw [if_neg (hxs c (by simp)).1, if_neg (hxs c (by simp)).2]
    rw [ih (fun c hc => hxs c (by simp [hc]))]
    simp only [List.length_cons]
    omega

/-! ## Helper lemmas: declaration matching inside a block -/

theorem dropWhile_head_false {p : Char → Bool} (l : List Char) (c : Char) (t : List Char)
    (h : l.dropWhile p = c :: t) : p c = false := by
  induction l with
  | nil => cases h
  | cons a l' ih =>
    by_cases hp : p a
    · rw [List.dropWhile_cons_of_pos hp] at h
      exact ih h
    · rw [List.dropWhile_cons_of_neg hp] at h
      cases h
      exact Bool.not_eq_true _ ▸ (by simpa using hp)

theorem dropWhile_idem {p : Char → Bool} (l : List Char) :
    (l.dropWhile p).dropWhile p = l.dropWhile p := by
  cases h : l.dropWhile p with
  | nil => rfl
  | cons c t =>
    rw [List.dropWhile_cons_of_neg]
    simp [dropWhile_head_false l c t h]

theorem trimJS_dropWhile (v : List Char) : trimJS (v.dropWhile isWS) = trimJS v := by
  unfold trimJS
  rw [dropWhile_idem]

theorem trimJS_all_ws (v : List Char) (h : ∀ c ∈ v, isWS c = true) : trimJS v = [] := by
  unfold trimJS
  rw [List.dropWhile_eq_nil_iff.mpr h]
  rfl

theorem trimJS_single_ws (c : Char) (h : isWS c = true) : trimJS [c] = [] :=
  trimJS_all_ws [c] (by intro x hx; simp at hx; subst hx; exact h)

theorem matchValueSemi_space (v r : List Char) (hv : ∀ c ∈ v, c ≠ ';') :
    ∃ val, matchValueSemi (' ' :: (v ++ ';' :: r)) = some (val, r) ∧
      trimJS val = trimJS v := by
  have hpsemi : (fun c => !(c == ';')) ';' = false := by decide
  cases hvd : v.dropWhile isWS with
  | cons c0 t0 =>
    have hmem : ∀ a ∈ c0 :: t0, a ∈ v := by
      intro a ha
      exact (List.dropWhile_sublist isWS).subset (hvd ▸ ha)
    have hpos : ∀ a ∈ c0 :: t0, (fun c => !(c == ';')) a = true := by
      intro a ha
      simp [hv a (hmem a ha)]
    have step1 : (' ' :: (v ++ ';' :: r)).dropWhile isWS = (c0 :: t0) ++ ';' :: r := by
      rw [List.dropWhile_cons_of_pos (by decide : isWS ' ' = true)]
      rw [List.dropWhile_append, hvd]
      simp
    refine ⟨c0 :: t0, ?_, ?_⟩
    · simp only [matchValueSemi, step1]
      rw [List.takeWhile_append_of_pos hpos, List.dropWhile_append_of_pos hpos]
      rw [List.takeWhile_cons_of_neg (by simp [hpsemi]),
          List.dropWhile_cons_of_neg (by simp [hpsemi])]
      simp
    · rw [← hvd]
      exact trimJS_dropWhile v
  | nil =>
    have hall : ∀ c ∈ v, isWS c = true := List.dropWhile_eq_nil_iff.mp hvd
    have step1 : (' ' :: (v ++ ';' :: r)).dropWhile isWS = ';' :: r := by
      rw [List.dropWhile_cons_of_pos (by decide : isWS ' ' = true)]
      rw [List.dropWhile_append_of_pos hall]
      rw [List.dropWhile_cons_of_neg (by decide : ¬ isWS ';' = true)]
    have step2 : (' ' :: (v ++ ';' :: r)).takeWhile isWS = ' ' :: v := by
      rw [List.takeWhile_cons_of_pos (by decide : isWS ' ' = true)]
      rw [List.takeWhile_append_of_pos hall]
      rw [List.takeWhile_cons_of_neg (by decide : ¬ isWS ';' = true)]
      simp
    have htrimv : trimJS v = [] := trimJS_all_ws v hall
    cases hrev : v.reverse with
    | nil =>
      have hvnil : v = [] := by simpa using congrArg List.reverse hrev
      subst hvnil
      refine ⟨[' '], ?_, by rw [trimJS_single_ws ' ' (by decide)]; rfl⟩
      simp only [matchValueSemi, step1, step2]
      rw [List.takeWhile_cons_of_neg (by simp [hpsemi]),
          List.dropWhile_cons_of_neg (by simp [hpsemi])]
      simp
    | cons c0 t0 =>
      have hc0v : c0 ∈ v := by
        have : c0 ∈ v.reverse := by rw [hrev]; exact List.mem_cons_self c0 t0
        simpa using this
      refine ⟨[c0], ?_, ?_⟩
      · simp only [matchValueSemi, step1, step2]
        rw [List.takeWhile_cons_of_neg (by simp [hpsemi]),
            List.dropWhile_cons_of_neg (by simp [hpsemi])]
        have hr2 : (' ' :: v).reverse = c0 :: (t0 ++ [' ']) := by
          rw [List.reverse_cons, hrev]
          simp
        simp [hr2]
      · rw [trimJS_single_ws c0 (hall c0 hc0v), htrimv]

theorem matchVarDecl_decl (name v r : List Char)
    (hn : name ≠ []) (hnc : ∀ c ∈ name, isNameChar c = true)
    (hv : ∀ c ∈ v, c ≠ ';') :
    ∃ val, matchVarDecl ('-' :: '-' :: (name ++ ':' :: ' ' :: (v ++ ';' :: r))) =
      some (name, val, r) ∧ trimJS val = trimJS v := by
  obtain ⟨val, hm, ht⟩ := matchValueSemi_space v r hv
  refine ⟨val, ?_, ht⟩
  have h1 : (name ++ ':' :: ' ' :: (v ++ ';' :: r)).takeWhile isNameChar = name := by
    rw [List.takeWhile_append_of_pos hnc]
    rw [List.takeWhile_cons_of_neg (by decide : ¬ isNameChar ':' = true)]
    simp
  have h2 : (name ++ ':' :: ' ' :: (v ++ ';' :: r)).dropWhile isNameChar =
      ':' :: ' ' :: (v ++ ';' :: r) := by
    rw [List.dropWhile_append_of_pos hnc]
    rw [List.dropWhile_cons_of_neg (by decide : ¬ isNameChar ':' = true)]
  simp only [matchVarDecl, h1, h2]
  simp [hm, List.isEmpty_iff, hn]

theorem varGoAux_some_step (c : Char) (cs n v rest : List Char) (m : VarMap)
    (h : matchVarDecl (c :: cs) = some (n, v, rest)) :
    varGoAux (c :: cs) 0 m =
      varGoAux cs (cs.length - rest.length) (setVar m ('-' :: '-' :: n) (trimJS v)) := by
  rw [varGoAux_cons_zero, h]

theorem varGoAux_decl (name v r : List Char) (m : VarMap)
    (hn : name ≠ []) (hnc : ∀ c ∈ name, isNameChar c = true)
    (hv : ∀ c ∈ v, c ≠ ';') :
    varGoAux ('-' :: '-' :: (name ++ ':' :: ' ' :: (v ++ ';' :: r))) 0 m =
      varGoAux r 0 (setVar m ('-' :: '-' :: name) (trimJS v)) := by
  obtain ⟨val, hm, ht⟩ := matchVarDecl_decl name v r hn hnc hv
  rw [varGoAux_some_step '-' _ name val r m hm]
  rw [ht]
  have hsplit : '-' :: (name ++ ':' :: ' ' :: (v ++ ';' :: r)) =
      ('-' :: (name ++ ':' :: ' ' :: (v ++ [';']))) ++ r := by
    simp
  rw [hsplit, List.length_append, Nat.add_sub_cancel]
  exact varGoAux_skip_count _ r _

theorem isNameChar_not_brace (c : Char) (h : isNameChar c = true) : c ≠ obr ∧ c ≠ cbr := by
  constructor <;> rintro rfl <;> revert h <;> decide

/-! ## Claim theorems (extraction) -/

/-- Claim C8: for a stylesheet consisting of the block
`<selector> { --<name>: <v>; }` (with a declaration-shaped name and a value
free of semicolons and braces), extraction with that selector returns a map
sending `--<name>` to the whitespace-trimmed value, otherwise verbatim. -/
theorem extract_roundtrip (sel name v : List Char)
    (hn : name ≠ []) (hnc : ∀ c ∈ name, isNameChar c = true)
    (hv : ∀ c ∈ v, c ≠ ';' ∧ c ≠ obr ∧ c ≠ cbr) :
    extractCSSVariables
      (sel ++ ' ' :: obr :: ' ' :: '-' :: '-' :: (name ++ ':' :: ' ' :: (v ++ [';', ' ', cbr])))
      sel ('-' :: '-' :: name) = some (trimJS v) := by
  have hfree : ∀ c ∈ (' ' :: '-' :: '-' :: (name ++ ':' :: ' ' :: (v ++ [';', ' ']))),
      c ≠ obr ∧ c ≠ cbr := by
    intro c hc
    simp only [List.mem_cons, List.mem_append, List.mem_nil_iff, or_false] at hc
    rcases hc with rfl | rfl | rfl | hx | rfl | rfl | hx | rfl | rfl
    all_goals first
      | exact ⟨by decide, by decide⟩
      | exact isNameChar_not_brace c (hnc c hx)
      | exact ⟨(hv c hx).2.1, (hv c hx).2.2⟩
  have hR2 : (' ' :: '-' :: '-' :: (name ++ ':' :: ' ' :: (v ++ [';', ' ', cbr])) : List Char) =
      (' ' :: '-' :: '-' :: (name ++ ':' :: ' ' :: (v ++ [';', ' ']))) ++ [cbr] := by
    simp
  have hblock : (' ' :: '-' :: '-' :: (name ++ ':' :: ' ' :: (v ++ [';', ' ', cbr]))).take
      (braceConsume (' ' :: '-' :: '-' :: (name ++ ':' :: ' ' :: (v ++ [';', ' ', cbr]))) 1 - 1) =
      ' ' :: '-' :: '-' :: (name ++ ':' :: ' ' :: (v ++ [';', ' '])) := by
    have hbc : braceConsume (' ' :: '-' :: '-' :: (name ++ ':' :: ' ' :: (v ++ [';', ' ', cbr]))) 1 =
        (' ' :: '-' :: '-' :: (name ++ ':' :: ' ' :: (v ++ [';', ' ']))).length + 1 := by
      rw [hR2, braceConsume_append_free _ hfree _ 1 one_ne_zero]
      rw [show braceConsume [cbr] 1 = 1 from by decide]
    rw [hbc, Nat.add_sub_cancel, hR2, List.take_left]
  have hvars : varGo (' ' :: '-' :: '-' :: (name ++ ':' :: ' ' :: (v ++ [';', ' ']))) vmEmpty =
      setVar vmEmpty ('-' :: '-' :: name) (trimJS v) := by
    unfold varGo
    rw [varGoAux_skip_head ' ' (by decide)]
    rw [varGoAux_decl name v [' '] vmEmpty hn hnc (fun c hc => (hv c hc).1)]
    rw [varGoAux_skip_head ' ' (by decide), varGoAux_nil]
  have hnoopen : ∀ c ∈ (' ' :: '-' :: '-' :: (name ++ ':' :: ' ' :: (v ++ [';', ' ', cbr]))),
      c ≠ obr := by
    intro c hc
    rw [hR2] at hc
    rcases List.mem_append.mp hc with hc | hc
    · exact (hfree c hc).1
    · simp only [List.mem_singleton] at hc
      subst hc
      decide
  unfold extractCSSVariables
  rw [extractGoAux_match sel _ _ vmEmpty (matchSelectorOpen_self sel _)]
  rw [hblock, hvars]
  rw [extractGoAux_no_open sel _ hnoopen]
  simp [setVar]

/-- Witness for C8 at a concrete block `:r { --x: 1px; }`. -/
theorem extract_roundtrip_witness :
    extractCSSVariables
      (toL ":r" ++ ' ' :: obr :: ' ' :: '-' :: '-' ::
        (toL "x" ++ ':' :: ' ' :: (toL "1px" ++ [';', ' ', cbr])))
      (toL ":r") ('-' :: '-' :: toL "x") = some (trimJS (toL "1px")) :=
  extract_roundtrip (toL ":r") (toL "x") (toL "1px") (by decide) (by decide) (by decide)

/-- Claim C9: the extractor is total — the brace scan consumes at most the
whole text, consumes exactly the whole text when no close brace exists
(stopping at the end), and extraction of malformed CSS with a missing close
brace still returns a (partial) map rather than failing. -/
theorem extraction_total :
    (∀ (cs : List Char) (d : Nat), braceConsume cs d ≤ cs.length) ∧
    (∀ (cs : List Char) (d : Nat), 0 < d → (∀ c ∈ cs, c ≠ cbr) →
      braceConsume cs d = cs.length) ∧
    extractCSSVariables (toL "a\x7b --x: 1; ") (toL "a") (toL "--x") = some (toL "1") := by
  refine ⟨?_, ?_, by decide⟩
  · intro cs
    induction cs with
    | nil => intro d; simp [braceConsume]
    | cons c t ih =>
      intro d
      by_cases hd : d = 0
      · simp [braceConsume, hd]
      · simp only [braceConsume, if_neg hd, List.length_cons]
        have := ih (if c = obr then d + 1 else if c = cbr then d - 1 else d)
        omega
  · intro cs
    induction cs with
    | nil => intro d _ _; simp [braceConsume]
    | cons c t ih =>
      intro d hd hmem
      have hd' : d ≠ 0 := Nat.pos_iff_ne_zero.mp hd
      simp only [braceConsume, if_neg hd', List.length_cons]
      rw [if_neg (hmem c (by simp))]
      have hpos : 0 < if c = obr then d + 1 else d := by
        split_ifs <;> omega
      rw [ih _ hpos (fun x hx => hmem x (by simp [hx]))]
      omega

/-- Witness for C9: the scan consumes the whole text when no close brace
occurs. -/
theorem extraction_total_witness : braceConsume (toL "ab") 1 = (toL "ab").length :=
  extraction_total.2.1 (toL "ab") 1 (by decide) (by decide)

/-- Claim C1: a scope block containing a nested rule block with its own
braces does not stop extraction at the first close brace: both the
declaration before the nested rule and the declaration after it (up to the
true matching close brace, found by tracking nesting depth) appear in the
returned map.  Parametrized over the selector (any selector whose leading
character is fresh for the block content), the two declarations and the
nested rule content. -/
theorem extract_nested_blocks (h : Char) (stail nameA nameB u v w : List Char)
    (hA : nameA ≠ []) (hAc : ∀ c ∈ nameA, isNameChar c = true)
    (hB : nameB ≠ []) (hBc : ∀ c ∈ nameB, isNameChar c = true)
    (hAB : nameA ≠ nameB)
    (hu : ∀ c ∈ u, c ≠ ';' ∧ c ≠ obr ∧ c ≠ cbr)
    (hv : ∀ c ∈ v, c ≠ ';' ∧ c ≠ obr ∧ c ≠ cbr)
    (hw : ∀ c ∈ w, c ≠ '-' ∧ c ≠ obr ∧ c ≠ cbr)
    (hh : isNameChar h = false)
    (hhu : h ∉ u) (hhv : h ∉ v) (hhw : h ∉ w)
    (hhg : h ∉ ([' ', '-', ':', ';', 'a', obr, cbr] : List Char)) :
    extractCSSVariables
        ((h :: stail) ++ ' ' :: obr :: ' ' :: '-' :: '-' ::
          (nameA ++ ':' :: ' ' :: (u ++ ';' :: ' ' :: 'a' :: ' ' :: obr :: ' ' ::
            (w ++ ' ' :: cbr :: ' ' :: '-' :: '-' ::
              (nameB ++ ':' :: ' ' :: (v ++ [';', ' ', cbr]))))))
        (h :: stail) ('-' :: '-' :: nameA) = some (trimJS u) ∧
    extractCSSVariables
        ((h :: stail) ++ ' ' :: obr :: ' ' :: '-' :: '-' ::
          (nameA ++ ':' :: ' ' :: (u ++ ';' :: ' ' :: 'a' :: ' ' :: obr :: ' ' ::
            (w ++ ' ' :: cbr :: ' ' :: '-' :: '-' ::
              (nameB ++ ':' :: ' ' :: (v ++ [';', ' ', cbr]))))))
        (h :: stail) ('-' :: '-' :: nameB) = some (trimJS v) := by
  have hfresh : ∀ c ∈ (' ' :: '-' :: '-' ::
      (nameA ++ ':' :: ' ' :: (u ++ ';' :: ' ' :: 'a' :: ' ' :: obr :: ' ' ::
        (w ++ ' ' :: cbr :: ' ' :: '-' :: '-' ::
          (nameB ++ ':' :: ' ' :: (v ++ [';', ' ', cbr])))))), c ≠ h := by
    intro c hc
    simp only [List.mem_cons, List.mem_append, List.mem_nil_iff, or_false] at hc
    rcases hc with rfl | rfl | rfl | hx | rfl | rfl | hx | rfl | rfl | rfl | rfl | rfl |
      rfl | hx | rfl | rfl | rfl | rfl | rfl | hx | rfl | rfl | hx | rfl | rfl | rfl
    all_goals first
      | exact fun heq => absurd (heq ▸ hAc c hx) (by simp [hh])
      | exact fun heq => absurd (heq ▸ hBc c hx) (by simp [hh])
      | exact fun heq => hhu (heq ▸ hx)
      | exact fun heq => hhv (heq ▸ hx)
      | exact fun heq => hhw (heq ▸ hx)
      | exact fun heq => hhg (heq ▸ (by simp))
  have hP1 : ∀ c ∈ (' ' :: '-' :: '-' :: (nameA ++ ':' :: ' ' :: (u ++ [';', ' ', 'a', ' ']))),
      c ≠ obr ∧ c ≠ cbr := by
    intro c hc
    simp only [List.mem_cons, List.mem_append, List.mem_nil_iff, or_false] at hc
    rcases hc with rfl | rfl | rfl | hx | rfl | rfl | hx | rfl | rfl | rfl | rfl
    all_goals first
      | exact ⟨by decide, by decide⟩
      | exact isNameChar_not_brace c (hAc c hx)
      | exact ⟨(hu c hx).2.1, (hu c hx).2.2⟩
  have hP2 : ∀ c ∈ (' ' :: (w ++ [' '])), c ≠ obr ∧ c ≠ cbr := by
    intro c hc
    simp only [List.mem_cons, List.mem_append, List.mem_nil_iff, or_false] at hc
    rcases hc with rfl | hx | rfl
    all_goals first
      | exact ⟨by decide, by decide⟩
      | exact ⟨(hw c hx).2.1, (hw c hx).2.2⟩
  have hP3 : ∀ c ∈ (' ' :: '-' :: '-' :: (nameB ++ ':' :: ' ' :: (v ++ [';', ' ']))),
      c ≠ obr ∧ c ≠ cbr := by
    intro c hc
    simp only [List.mem_cons, List.mem_append, List.mem_nil_iff, or_false] at hc
    rcases hc with rfl | rfl | rfl | hx | rfl | rfl | hx | rfl | rfl
    all_goals first
      | exact ⟨by decide, by decide⟩
      | exact isNameChar_not_brace c (hBc c hx)
      | exact ⟨(hv c hx).2.1, (hv c hx).2.2⟩
  have hRdec : (' ' :: '-' :: '-' ::
      (nameA ++ ':' :: ' ' :: (u ++ ';' :: ' ' :: 'a' :: ' ' :: obr :: ' ' ::
        (w ++ ' ' :: cbr :: ' ' :: '-' :: '-' ::
          (nameB ++ ':' :: ' ' :: (v ++ [';', ' ', cbr]))))) : List Char) =
      (' ' :: '-' :: '-' :: (nameA ++ ':' :: ' ' :: (u ++ [';', ' ', 'a', ' ']))) ++ obr ::
        ((' ' :: (w ++ [' '])) ++ cbr ::
          ((' ' :: '-' :: '-' :: (nameB ++ ':' :: ' ' :: (v ++ [';', ' ']))) ++ [cbr])) := by
    simp
  have hR2 : (' ' :: '-' :: '-' ::
      (nameA ++ ':' :: ' ' :: (u ++ ';' :: ' ' :: 'a' :: ' ' :: obr :: ' ' ::
        (w ++ ' ' :: cbr :: ' ' :: '-' :: '-' ::
          (nameB ++ ':' :: ' ' :: (v ++ [';', ' ', cbr]))))) : List Char) =
      (' ' :: '-' :: '-' ::
        (nameA ++ ':' :: ' ' :: (u ++ ';' :: ' ' :: 'a' :: ' ' :: obr :: ' ' ::
          (w ++ ' ' :: cbr :: ' ' :: '-' :: '-' ::
            (nameB ++ ':' :: ' ' :: (v ++ [';', ' '])))))) ++ [cbr] := by
    simp
  have hbc : braceConsume (' ' :: '-' :: '-' ::
      (nameA ++ ':' :: ' ' :: (u ++ ';' :: ' ' :: 'a' :: ' ' :: obr :: ' ' ::
        (w ++ ' ' :: cbr :: ' ' :: '-' :: '-' ::
          (nameB ++ ':' :: ' ' :: (v ++ [';', ' ', cbr])))))) 1 =
      (' ' :: '-' :: '-' ::
        (nameA ++ ':' :: ' ' :: (u ++ ';' :: ' ' :: 'a' :: ' ' :: obr :: ' ' ::
          (w ++ ' ' :: cbr :: ' ' :: '-' :: '-' ::
            (nameB ++ ':' :: ' ' :: (v ++ [';', ' '])))))).length + 1 := by
    rw [hRdec]
    rw [braceConsume_append_free _ hP1 _ 1 one_ne_zero]
    rw [braceConsume_obr _ 1 one_ne_zero]
    rw [show (1 : Nat) + 1 = 2 from rfl]
    rw [braceConsume_append_free _ hP2 _ 2 (by norm_num)]
    rw [braceConsume_cbr _ 2 (by norm_num)]
    rw [show (2 : Nat) - 1 = 1 from rfl]
    rw [braceConsume_append_free _ hP3 _ 1 one_ne_zero]
    rw [show braceConsume [cbr] 1 = 1 from by decide]
    simp only [List.length_cons, List.length_append, List.length_nil]
    omega
  have hblock : (' ' :: '-' :: '-' ::
      (nameA ++ ':' :: ' ' :: (u ++ ';' :: ' ' :: 'a' :: ' ' :: obr :: ' ' ::
        (w ++ ' ' :: cbr :: ' ' :: '-' :: '-' ::
          (nameB ++ ':' :: ' ' :: (v ++ [';', ' ', cbr])))))).take
      (braceConsume (' ' :: '-' :: '-' ::
        (nameA ++ ':' :: ' ' :: (u ++ ';' :: ' ' :: 'a' :: ' ' :: obr :: ' ' ::
          (w ++ ' ' :: cbr :: ' ' :: '-' :: '-' ::
            (nameB ++ ':' :: ' ' :: (v ++ [';', ' ', cbr])))))) 1 - 1) =
      ' ' :: '-' :: '-' ::
        (nameA ++ ':' :: ' ' :: (u ++ ';' :: ' ' :: 'a' :: ' ' :: obr :: ' ' ::
          (w ++ ' ' :: cbr :: ' ' :: '-' :: '-' ::
            (nameB ++ ':' :: ' ' :: (v ++ [';', ' ']))))) := by
    rw [hbc, Nat.add_sub_cancel, hR2, List.take_left]
  have hvars : varGo (' ' :: '-' :: '-' ::
      (nameA ++ ':' :: ' ' :: (u ++ ';' :: ' ' :: 'a' :: ' ' :: obr :: ' ' ::
        (w ++ ' ' :: cbr :: ' ' :: '-' :: '-' ::
          (nameB ++ ':' :: ' ' :: (v ++ [';', ' '])))))) vmEmpty =
      setVar (setVar vmEmpty ('-' :: '-' :: nameA) (trimJS u))
        ('-' :: '-' :: nameB) (trimJS v) := by
    unfold varGo
    rw [varGoAux_skip_head ' ' (by decide)]
    rw [varGoAux_decl nameA u _ vmEmpty hA hAc (fun c hc => (hu c hc).1)]
    rw [varGoAux_skip_head ' ' (by decide), varGoAux_skip_head 'a' (by decide),
        varGoAux_skip_head ' ' (by decide), varGoAux_skip_head obr (by decide),
        varGoAux_skip_head ' ' (by decide)]
    rw [varGoAux_skip_app w (fun c hc => (hw c hc).1)]
    rw [varGoAux_skip_head ' ' (by decide), varGoAux_skip_head cbr (by decide),
        varGoAux_skip_head ' ' (by decide)]
    rw [varGoAux_decl nameB v [' '] _ hB hBc (fun c hc => (hv c hc).1)]
    rw [varGoAux_skip_head ' ' (by decide), varGoAux_nil]
  have hmain : extractCSSVariables
      ((h :: stail) ++ ' ' :: obr :: ' ' :: '-' :: '-' ::
        (nameA ++ ':' :: ' ' :: (u ++ ';' :: ' ' :: 'a' :: ' ' :: obr :: ' ' ::
          (w ++ ' ' :: cbr :: ' ' :: '-' :: '-' ::
            (nameB ++ ':' :: ' ' :: (v ++ [';', ' ', cbr]))))))
      (h :: stail) =
      setVar (setVar vmEmpty ('-' :: '-' :: nameA) (trimJS u))
        ('-' :: '-' :: nameB) (trimJS v) := by
    unfold extractCSSVariables
    rw [extractGoAux_match _ _ _ vmEmpty (matchSelectorOpen_self (h :: stail) _)]
    rw [hblock, hvars]
    exact extractGoAux_no_head h stail _ hfresh _
  have hkey : ('-' :: '-' :: nameA) ≠ ('-' :: '-' :: nameB) := by
    simpa using hAB
  constructor
  · rw [hmain]
    simp [setVar, hkey]
  · rw [hmain]
    simp [setVar]

/-- Witness for C1: a `.dark` block with a nested `a { color:red }` rule
between two declarations; both declarations are extracted. -/
theorem extract_nested_blocks_witness :
    extractCSSVariables
        (('.' :: toL "dark") ++ ' ' :: obr :: ' ' :: '-' :: '-' ::
          (toL "x" ++ ':' :: ' ' :: (toL "1" ++ ';' :: ' ' :: 'a' :: ' ' :: obr :: ' ' ::
            (toL "color:red" ++ ' ' :: cbr :: ' ' :: '-' :: '-' ::
              (toL "y" ++ ':' :: ' ' :: (toL "2" ++ [';', ' ', cbr]))))))
        ('.' :: toL "dark") ('-' :: '-' :: toL "x") = some (trimJS (toL "1")) ∧
    extractCSSVariables
        (('.' :: toL "dark") ++ ' ' :: obr :: ' ' :: '-' :: '-' ::
          (toL "x" ++ ':' :: ' ' :: (toL "1" ++ ';' :: ' ' :: 'a' :: ' ' :: obr :: ' ' ::
            (toL "color:red" ++ ' ' :: cbr :: ' ' :: '-' :: '-' ::
              (toL "y" ++ ':' :: ' ' :: (toL "2" ++ [';', ' ', cbr]))))))
        ('.' :: toL "dark") ('-' :: '-' :: toL "y") = some (trimJS (toL "2")) :=
  extract_nested_blocks '.' (toL "dark") (toL "x") (toL "y") (toL "1") (toL "2")
    (toL "color:red") (by decide) (by decide) (by decide) (by decide) (by decide)
    (by decide) (by decide) (by decide) (by decide) (by decide) (by decide) (by decide)
    (by decide)
